import Mathlib

/-!
Verification of the El País opinion-scraper orchestration script (`sele.py`).

The script drives a browser to collect opinion articles, downloads cover
images, translates headlines and analyses word frequencies.  The parts the
specification covers are embedded here as executable Lean definitions:

* pure string/list manipulation (link filtering, deduplication, tokenising,
  filename derivation) is translated directly from the Python code;
* interactions with external services (BeautifulSoup queries, HTTP requests,
  the Google Translate client) are represented by their observable results:
  a parsed page becomes a record of query results, an HTTP call becomes an
  `Except`-valued response, the per-text translation call becomes an oracle
  function `String → Except String (List String)`.

All definitions are computable; theorems are stated over them.
-/

/-! ### Generic association-list helpers

Python `dict` operations used by the script (`counts.get(w, 0)`,
`counts[w] = ...`, `cap['bstack:options'] = ...`) preserve insertion order:
an assignment to an existing key keeps its position, a new key is appended.
`lookupKey`/`setKey` model exactly that on an association list. -/

def lookupKey {β : Type} : List (String × β) → String → Option β
  | [], _ => none
  | p :: rest, k => if p.1 = k then some p.2 else lookupKey rest k

def setKey {β : Type} : List (String × β) → String → β → List (String × β)
  | [], k, v => [(k, v)]
  | p :: rest, k, v => if p.1 = k then (k, v) :: rest else p :: setKey rest k v

def keysOf {β : Type} (l : List (String × β)) : List String :=
  l.map Prod.fst

theorem lookupKey_setKey {β : Type} (l : List (String × β)) (k k' : String) (v : β) :
    lookupKey (setKey l k v) k' = if k = k' then some v else lookupKey l k' := by
  induction l with
  | nil => by_cases h : k = k' <;> simp [setKey, lookupKey, h]
  | cons p rest ih =>
    by_cases hp : p.1 = k
    · by_cases h : k = k'
      · simp [setKey, lookupKey, hp, h]
      · have hp' : ¬p.1 = k' := fun hh => h (hp ▸ hh)
        simp [setKey, lookupKey, hp, h, hp']
    · by_cases h1 : p.1 = k'
      · have h2 : ¬k = k' := fun hh => hp (h1.trans hh.symm)
        have h2' : ¬k' = k := fun hh => h2 hh.symm
        simp [setKey, lookupKey, hp, h1, h2, h2']
      · simp [setKey, lookupKey, hp, h1, ih]

theorem setKey_keys {β : Type} (l : List (String × β)) (k : String) (v : β) :
    keysOf (setKey l k v) = if k ∈ keysOf l then keysOf l else keysOf l ++ [k] := by
  induction l with
  | nil => simp [setKey, keysOf]
  | cons p rest ih =>
    by_cases hp : p.1 = k
    · simp [setKey, keysOf, hp]
    · have hkp : ¬k = p.1 := fun hh => hp hh.symm
      by_cases hmem : k ∈ keysOf rest
      · have ih' : keysOf (setKey rest k v) = keysOf rest := by
          rw [ih]; simp [hmem]
        simp only [keysOf, List.map_cons] at ih' ⊢
        simp [setKey, hp, hmem, hkp, ih']
        have hcond : k ∈ p.1 :: List.map Prod.fst rest := List.mem_cons_of_mem _ hmem
        rw [if_pos hcond]
      · have ih' : keysOf (setKey rest k v) = keysOf rest ++ [k] := by
          rw [ih]; simp [hmem]
        simp only [keysOf, List.map_cons] at ih' ⊢
        simp [setKey, hp, hmem, hkp, ih']
        have hcond : k ∉ p.1 :: List.map Prod.fst rest :=
          fun hh => (List.mem_cons.mp hh).elim hkp hmem
        rw [if_neg hcond]

theorem setKey_keys_nodup {β : Type} (l : List (String × β)) (k : String) (v : β)
    (h : (keysOf l).Nodup) : (keysOf (setKey l k v)).Nodup := by
  rw [setKey_keys]
  by_cases hmem : k ∈ keysOf l
  · simpa [hmem] using h
  · simp [hmem, List.nodup_append, h]

theorem lookupKey_mem {β : Type} (l : List (String × β)) (p : String × β)
    (h : (keysOf l).Nodup) : p ∈ l ↔ lookupKey l p.1 = some p.2 := by
  induction l with
  | nil => simp [lookupKey]
  | cons q rest ih =>
    simp only [keysOf, List.map_cons, List.nodup_cons] at h
    obtain ⟨hq, hrest⟩ := h
    by_cases hfst : q.1 = p.1
    · rw [List.mem_cons, lookupKey, if_pos hfst]
      constructor
      · rintro (rfl | hmem)
        · rfl
        · rw [hfst] at hq
          exact absurd (List.mem_map_of_mem Prod.fst hmem) hq
      · intro hl
        injection hl with hl
        exact Or.inl (Prod.ext_iff.mpr ⟨hfst.symm, hl.symm⟩)
    · rw [List.mem_cons, lookupKey, if_neg hfst, ih hrest]
      constructor
      · rintro (rfl | hmem)
        · exact absurd rfl hfst
        · exact hmem
      · exact Or.inr

/-! ### First-occurrence deduplication keyed by a string

`sele.py` deduplicates twice with the same idiom: once over URL strings in
`scrape_opinion_articles` (`seen` set + `ordered` list, lines 88-93) and once
over article records keyed by `r['url']` in the `__main__` parallel branch
(lines 461-466).  `dedupeKeyGo` is that loop; the key function is the
identity for plain URLs and `ArticleRecord.url` for records. -/

def dedupeKeyGo {α : Type} (key : α → String) :
    List String → List α → List α → List α
  | _, out, [] => out
  | seen, out, x :: rest =>
    if key x ∈ seen then dedupeKeyGo key seen out rest
    else dedupeKeyGo key (key x :: seen) (out ++ [x]) rest

def dedupeByKey {α : Type} (key : α → String) (xs : List α) : List α :=
  dedupeKeyGo key [] [] xs

theorem dedupeKeyGo_map_mem {α : Type} (key : α → String) (u : String) :
    ∀ (xs : List α) (seen : List String) (out : List α),
      u ∈ (dedupeKeyGo key seen out xs).map key ↔
        u ∈ out.map key ∨ (u ∈ xs.map key ∧ u ∉ seen) := by
  intro xs
  induction xs with
  | nil => intro seen out; simp [dedupeKeyGo]
  | cons x rest ih =>
    intro seen out
    by_cases h : key x ∈ seen
    · rw [dedupeKeyGo, if_pos h, ih]
      simp only [List.map_cons, List.mem_cons]
      constructor
      · rintro (h1 | ⟨h2, h3⟩)
        · exact Or.inl h1
        · exact Or.inr ⟨Or.inr h2, h3⟩
      · rintro (h1 | ⟨h2 | h2, h3⟩)
        · exact Or.inl h1
        · subst h2; exact absurd h h3
        · exact Or.inr ⟨h2, h3⟩
    · rw [dedupeKeyGo, if_neg h, ih]
      by_cases hu : u = key x
      · subst hu
        simp [h]
      · simp [hu]

theorem dedupeKeyGo_map_nodup {α : Type} (key : α → String) :
    ∀ (xs : List α) (seen : List String) (out : List α),
      (out.map key).Nodup → (∀ s ∈ out.map key, s ∈ seen) →
      ((dedupeKeyGo key seen out xs).map key).Nodup := by
  intro xs
  induction xs with
  | nil => intro seen out h1 _; simpa [dedupeKeyGo] using h1
  | cons x rest ih =>
    intro seen out h1 h2
    by_cases h : key x ∈ seen
    · rw [dedupeKeyGo, if_pos h]
      exact ih seen out h1 h2
    · rw [dedupeKeyGo, if_neg h]
      refine ih (key x :: seen) (out ++ [x]) ?_ ?_
      · have hx : key x ∉ out.map key := fun hm => h (h2 _ hm)
        simp [List.nodup_append, h1, hx]
      · intro s hs
        rw [List.map_append] at hs
        rcases List.mem_append.mp hs with hs | hs
        · exact List.mem_cons_of_mem _ (h2 s hs)
        · have hsx : s = key x := by simpa using hs
          exact hsx ▸ List.mem_cons_self _ _

theorem dedupeKeyGo_sublist {α : Type} (key : α → String) :
    ∀ (xs : List α) (seen : List String) (out : List α),
      ∃ ys, ys.Sublist xs ∧ dedupeKeyGo key seen out xs = out ++ ys := by
  intro xs
  induction xs with
  | nil => intro seen out; exact ⟨[], List.nil_sublist _, by simp [dedupeKeyGo]⟩
  | cons x rest ih =>
    intro seen out
    by_cases h : key x ∈ seen
    · obtain ⟨ys, hs, he⟩ := ih seen out
      exact ⟨ys, hs.cons x, by rw [dedupeKeyGo, if_pos h, he]⟩
    · obtain ⟨ys, hs, he⟩ := ih (key x :: seen) (out ++ [x])
      refine ⟨x :: ys, hs.cons₂ x, ?_⟩
      rw [dedupeKeyGo, if_neg h, he, List.append_assoc]
      rfl

theorem dedupeKeyGo_find {α : Type} (key : α → String) :
    ∀ (xs : List α) (seen : List String) (out : List α) (y : α),
      y ∈ dedupeKeyGo key seen out xs →
      y ∈ out ∨ (key y ∉ seen ∧ xs.find? (fun x => key x == key y) = some y) := by
  intro xs
  induction xs with
  | nil => intro seen out y hy; exact Or.inl (by simpa [dedupeKeyGo] using hy)
  | cons x rest ih =>
    intro seen out y hy
    by_cases h : key x ∈ seen
    · rw [dedupeKeyGo, if_pos h] at hy
      rcases ih seen out y hy with hy | ⟨hns, hfind⟩
      · exact Or.inl hy
      · have hne : (key x == key y) = false := by
          rw [beq_eq_false_iff_ne]
          intro hk
          exact hns (by rw [← hk]; exact h)
        refine Or.inr ⟨hns, ?_⟩
        rw [List.find?_cons]
        simp only [hne]
        exact hfind
    · rw [dedupeKeyGo, if_neg h] at hy
      rcases ih (key x :: seen) (out ++ [x]) y hy with hy | ⟨hns, hfind⟩
      · rcases List.mem_append.mp hy with hy | hy
        · exact Or.inl hy
        · have hxy : y = x := by simpa using hy
          subst hxy
          refine Or.inr ⟨h, ?_⟩
          rw [List.find?_cons]
          simp
      · have hne : (key x == key y) = false := by
          rw [beq_eq_false_iff_ne]
          intro hk
          exact hns (by rw [← hk]; exact List.mem_cons_self _ _)
        refine Or.inr ⟨fun hm => hns (List.mem_cons_of_mem _ hm), ?_⟩
        rw [List.find?_cons]
        simp only [hne]
        exact hfind

theorem dedupeByKey_map_nodup {α : Type} (key : α → String) (xs : List α) :
    ((dedupeByKey key xs).map key).Nodup :=
  dedupeKeyGo_map_nodup key xs [] [] (by simp) (by simp)

theorem dedupeByKey_map_mem {α : Type} (key : α → String) (xs : List α) (u : String) :
    u ∈ (dedupeByKey key xs).map key ↔ u ∈ xs.map key := by
  rw [dedupeByKey, dedupeKeyGo_map_mem]
  simp

theorem dedupeByKey_sublist {α : Type} (key : α → String) (xs : List α) :
    (dedupeByKey key xs).Sublist xs := by
  obtain ⟨ys, hs, he⟩ := dedupeKeyGo_sublist key xs [] []
  rw [dedupeByKey, he]
  simpa using hs

theorem dedupeByKey_find {α : Type} (key : α → String) (xs : List α) (y : α)
    (hy : y ∈ dedupeByKey key xs) : xs.find? (fun x => key x == key y) = some y := by
  rcases dedupeKeyGo_find key xs [] [] y hy with h | ⟨_, h⟩
  · simp at h
  · exact h

theorem dedupeByKey_length {α : Type} (key : α → String) (xs : List α) :
    (dedupeByKey key xs).length = (xs.map key).toFinset.card := by
  have hnd := dedupeByKey_map_nodup key xs
  have hfin : ((dedupeByKey key xs).map key).toFinset = (xs.map key).toFinset := by
    ext u
    simp only [List.mem_toFinset]
    exact dedupeByKey_map_mem key xs u
  calc (dedupeByKey key xs).length
      = ((dedupeByKey key xs).map key).length := (List.length_map _ _).symm
    _ = ((dedupeByKey key xs).map key).toFinset.card :=
        (List.toFinset_card_of_nodup hnd).symm
    _ = (xs.map key).toFinset.card := by rw [hfin]

/-! ### Data model and parallel orchestration

`ArticleRecord` is the dict appended at line 177 of `sele.py`:
`{'url': ..., 'title_es': ..., 'body_es': ..., 'cover_image': ..., 'title_en': None}`.

A `WorkerOutcome` is what `fut.result()` delivers to the orchestrator loop
(lines 376-380): either the worker's record list or a raised exception.
`as_completed` yields futures in completion order; that order is the order
of the outcome list here. -/

structure ArticleRecord where
  url : String
  title_es : String
  body_es : String
  cover_image : Option String
  title_en : Option String
deriving DecidableEq, Repr

inductive WorkerOutcome where
  | ok : List ArticleRecord → WorkerOutcome
  | err : String → WorkerOutcome
deriving DecidableEq, Repr

/-- Records a worker contributed: its list on success, nothing on failure
(the `except` branch at line 379-380 only prints). -/
def workerRecords : WorkerOutcome → List ArticleRecord
  | .ok rs => rs
  | .err _ => []

/-- `run_on_browserstack_parallel` (lines 371-381): starts with
`results_all = []` and, per completed worker, `results_all.extend(fut.result())`
inside `try`, skipping workers whose `result()` raises. -/
def run_on_browserstack_parallel (outcomes : List WorkerOutcome) : List ArticleRecord :=
  outcomes.foldl (fun acc o => acc ++ workerRecords o) []

/-- The `__main__` dedup loop (lines 461-466): `seen_urls` set plus
`unique_results` list, keyed by `r['url']`, keeping the first occurrence. -/
def uniqueResults (rs : List ArticleRecord) : List ArticleRecord :=
  dedupeByKey (fun r => r.url) rs

theorem run_parallel_eq_flatten (outcomes : List WorkerOutcome) :
    run_on_browserstack_parallel outcomes = (outcomes.map workerRecords).flatten := by
  have hgen : ∀ (os : List WorkerOutcome) (acc : List ArticleRecord),
      os.foldl (fun a o => a ++ workerRecords o) acc = acc ++ (os.map workerRecords).flatten := by
    intro os
    induction os with
    | nil => intro acc; simp
    | cons o rest ih =>
      intro acc
      simp only [List.foldl_cons, List.map_cons, List.flatten_cons, ih, List.append_assoc]
  simpa using hgen outcomes []

/-- C1: after all workers finish, the batch merges all contributed article
records into one sequence (`run_on_browserstack_parallel`) and deduplicates
by `url` keeping the first occurrence encountered during the merge
(`uniqueResults`): for two workers with overlapping `url` sets, the merged
result contains each `url` exactly once (Nodup plus membership equal to the
union), the merged count equals the cardinality of the union of the two
workers' `url` sets (not their sum), and every kept record is the first
record bearing its `url` in the merge order. -/
theorem parallel_merge_dedupes_by_url (w1 w2 : List ArticleRecord) :
    ((uniqueResults (run_on_browserstack_parallel
        [WorkerOutcome.ok w1, WorkerOutcome.ok w2])).map (fun r => r.url)).Nodup ∧
    (∀ u, u ∈ (uniqueResults (run_on_browserstack_parallel
        [WorkerOutcome.ok w1, WorkerOutcome.ok w2])).map (fun r => r.url) ↔
      u ∈ w1.map (fun r => r.url) ∨ u ∈ w2.map (fun r => r.url)) ∧
    (uniqueResults (run_on_browserstack_parallel
        [WorkerOutcome.ok w1, WorkerOutcome.ok w2])).length =
      ((w1.map (fun r => r.url)).toFinset ∪ (w2.map (fun r => r.url)).toFinset).card ∧
    (∀ r ∈ uniqueResults (run_on_browserstack_parallel
        [WorkerOutcome.ok w1, WorkerOutcome.ok w2]),
      (w1 ++ w2).find? (fun x => x.url == r.url) = some r) := by
  have hrun : run_on_browserstack_parallel [WorkerOutcome.ok w1, WorkerOutcome.ok w2]
      = w1 ++ w2 := by
    simp [run_on_browserstack_parallel, workerRecords]
  rw [hrun]
  refine ⟨dedupeByKey_map_nodup _ _, fun u => ?_, ?_, fun r hr => ?_⟩
  · rw [uniqueResults, dedupeByKey_map_mem]
    simp
  · rw [uniqueResults, dedupeByKey_length]
    congr 1
    rw [List.map_append, List.toFinset_append]
  · exact dedupeByKey_find _ _ r hr

/-- Witness for C1 at concrete input: worker 1 returns one record with url
u1, worker 2 returns records with urls u1 and u2; the kept record for u1 is
worker 1's (the first in merge order). -/
theorem parallel_merge_dedupes_by_url_witness :
    ([(⟨"u1", "ta", "ba", none, none⟩ : ArticleRecord)] ++
      [(⟨"u1", "tb", "bb", none, none⟩ : ArticleRecord),
       (⟨"u2", "tc", "bc", none, none⟩ : ArticleRecord)]).find?
      (fun x => x.url == (⟨"u1", "ta", "ba", none, none⟩ : ArticleRecord).url) =
      some ⟨"u1", "ta", "ba", none, none⟩ := by
  have h := parallel_merge_dedupes_by_url
    [⟨"u1", "ta", "ba", none, none⟩]
    [⟨"u1", "tb", "bb", none, none⟩, ⟨"u2", "tc", "bc", none, none⟩]
  exact h.2.2.2 ⟨"u1", "ta", "ba", none, none⟩ (by decide)

/-- C2: if one worker of a batch raises past its own boundary, the
orchestrator's `except` branch swallows it, so that worker contributes zero
records (dropping it leaves the merged result unchanged) while the merged
result still contains every record returned by the other workers; the fold
is total, so the run completes. -/
theorem worker_failure_isolation (pre post : List WorkerOutcome) (e : String) :
    run_on_browserstack_parallel (pre ++ WorkerOutcome.err e :: post) =
      run_on_browserstack_parallel (pre ++ post) ∧
    (∀ rs, WorkerOutcome.ok rs ∈ pre ++ post → ∀ r ∈ rs,
      r ∈ run_on_browserstack_parallel (pre ++ WorkerOutcome.err e :: post)) := by
  constructor
  · rw [run_parallel_eq_flatten, run_parallel_eq_flatten]
    simp [workerRecords]
  · intro rs hmem r hr
    rw [run_parallel_eq_flatten]
    rcases List.mem_append.mp hmem with hmem | hmem
    · exact List.mem_flatten.mpr
        ⟨rs, List.mem_map_of_mem workerRecords (List.mem_append_left _ hmem), hr⟩
    · exact List.mem_flatten.mpr
        ⟨rs, List.mem_map_of_mem workerRecords
          (List.mem_append_right _ (List.mem_cons_of_mem _ hmem)), hr⟩

/-- Witness for C2 at concrete input: with worker 2 of 3 failing, worker 3's
record is still in the merged result. -/
theorem worker_failure_isolation_witness :
    (⟨"u2", "t2", "b2", none, none⟩ : ArticleRecord) ∈
      run_on_browserstack_parallel
        [WorkerOutcome.ok [⟨"u1", "t1", "b1", none, none⟩],
         WorkerOutcome.err "boom",
         WorkerOutcome.ok [⟨"u2", "t2", "b2", none, none⟩]] := by
  have h := worker_failure_isolation
    [WorkerOutcome.ok [⟨"u1", "t1", "b1", none, none⟩]]
    [WorkerOutcome.ok [⟨"u2", "t2", "b2", none, none⟩]] "boom"
  exact h.2 [⟨"u2", "t2", "b2", none, none⟩] (by decide) _ (by decide)

/-! ### Translation adapter (`translate_texts_google`, lines 185-223)

The Google client call `client.translate_text(request={...})` is abstracted
as an oracle `String → Except String (List String)` returning the
`translated_text` list of the response (or a raised exception).  Environment
and credential-file access is abstracted as a `TranslateEnv` record holding
the observable results of the `os.environ.get` and credential-file reads.
Python truthiness on optional strings (empty string is falsy) is `truthy`. -/

structure TranslateEnv where
  googleCloudProject : Option String
  gcpProject : Option String
  googleApplicationCredentials : Option String
  credsProjectId : Except String (Option String)
deriving Repr

def truthy : Option String → Bool
  | none => false
  | some s => !s.isEmpty

/-- Python `a or b` on two optional strings. -/
def pyOr (a b : Option String) : Option String :=
  if truthy a then a else b

/-- Lines 190-201: `GOOGLE_CLOUD_PROJECT or GCP_PROJECT`, then, when still
falsy and `GOOGLE_APPLICATION_CREDENTIALS` is set, `creds.get('project_id')`
from the parsed file (a read/parse failure is printed and leaves the value
unchanged). -/
def resolveProjectId (env : TranslateEnv) : Option String :=
  let p := pyOr env.googleCloudProject env.gcpProject
  if truthy p then p
  else
    match env.googleApplicationCredentials with
    | none => p
    | some _ =>
      match env.credsProjectId with
      | .error _ => p
      | .ok pid => pid

def libMissingMsg : String :=
  "google-cloud-translate library not available. Install google-cloud-translate or implement alternate API."

def projectIdErrorMsg : String :=
  "Could not determine Google Cloud Project ID. Set GOOGLE_CLOUD_PROJECT env var or ensure \"project_id\" is in your GOOGLE_APPLICATION_CREDENTIALS JSON."

/-- One iteration of the loop at lines 212-222:
`translations[0] if translations else ''`. -/
def translateOne (oracle : String → Except String (List String)) (t : String) :
    Except String String :=
  match oracle t with
  | .error e => .error e
  | .ok ts => .ok (ts.headD "")

/-- The per-text translation the loop produces on success. -/
def expectedOne (oracle : String → Except String (List String)) (t : String) : String :=
  match oracle t with
  | .ok ts => ts.headD ""
  | .error _ => ""

/-- The `for text in texts` loop: an exception from any call aborts the whole
batch (there is no per-item handler inside `translate_texts_google`). -/
def translate_loop (oracle : String → Except String (List String)) :
    List String → Except String (List String)
  | [] => .ok []
  | t :: rest =>
    match translateOne oracle t with
    | .error e => .error e
    | .ok s =>
      match translate_loop oracle rest with
      | .error e => .error e
      | .ok l => .ok (s :: l)

/-- `translate_texts_google` (lines 185-223): raises if the library is
missing, resolves the project id and raises a descriptive `RuntimeError`
before any translation call if it is unresolvable, then translates one text
at a time. -/
def translate_texts_google (hasGoogle : Bool) (env : TranslateEnv)
    (oracle : String → Except String (List String)) (texts : List String) :
    Except String (List String) :=
  if !hasGoogle then .error libMissingMsg
  else if truthy (resolveProjectId env) then translate_loop oracle texts
  else .error projectIdErrorMsg

/-- The `__main__` parallel branch, lines 471-481: checks `HAS_GOOGLE`,
calls `translate_texts_google` inside `try`, and on any exception substitutes
`['(translation failed)'] * len(titles)`; without the library it substitutes
`['(google lib missing)'] * len(titles)`.  (`run_full_flow_local` lines
324-334 is the identical logic.) -/
def bsTranslationStep (hasGoogle : Bool) (env : TranslateEnv)
    (oracle : String → Except String (List String)) (titles : List String) :
    List String :=
  if hasGoogle then
    match translate_texts_google hasGoogle env oracle titles with
    | .ok l => l
    | .error _ => List.replicate titles.length "(translation failed)"
  else List.replicate titles.length "(google lib missing)"

theorem translate_loop_ok (oracle : String → Except String (List String)) :
    ∀ (texts l : List String), translate_loop oracle texts = .ok l →
      l = texts.map (expectedOne oracle) := by
  intro texts
  induction texts with
  | nil => intro l h; simp [translate_loop] at h; subst h; simp
  | cons t rest ih =>
    intro l h
    rw [translate_loop] at h
    cases ho : translateOne oracle t with
    | error e => rw [ho] at h; exact absurd h (by simp)
    | ok s =>
      rw [ho] at h
      cases hr : translate_loop oracle rest with
      | error e => rw [hr] at h; exact absurd h (by simp)
      | ok l' =>
        rw [hr] at h
        injection h with h
        have hs : s = expectedOne oracle t := by
          rw [translateOne] at ho
          rw [expectedOne]
          cases hx : oracle t with
          | error e => rw [hx] at ho; simp at ho
          | ok ts => rw [hx] at ho; simp at ho; simp [ho.symm]
        rw [← h, List.map_cons, hs, ih l' hr]

/-- C3: the translation step over N titles always yields exactly N outputs in
input order: on success `bsTranslationStep` returns the per-title
translations in order (`titles.map (expectedOne oracle)`); if the batch
fails, every output is the single placeholder "(translation failed)"; if the
library is missing, every output is the single placeholder
"(google lib missing)"; the length always equals the input length, so the
downstream consumer never sees a mix or a different-length sequence. -/
theorem translation_step_length_and_uniformity (hasGoogle : Bool) (env : TranslateEnv)
    (oracle : String → Except String (List String)) (titles : List String) :
    (bsTranslationStep hasGoogle env oracle titles).length = titles.length ∧
    (hasGoogle = false →
      bsTranslationStep hasGoogle env oracle titles =
        List.replicate titles.length "(google lib missing)") ∧
    (∀ e, translate_texts_google hasGoogle env oracle titles = .error e →
      hasGoogle = true →
      bsTranslationStep hasGoogle env oracle titles =
        List.replicate titles.length "(translation failed)") ∧
    (∀ l, translate_texts_google hasGoogle env oracle titles = .ok l →
      bsTranslationStep hasGoogle env oracle titles =
        titles.map (expectedOne oracle)) := by
  have hok : ∀ l, translate_texts_google true env oracle titles = .ok l →
      l = titles.map (expectedOne oracle) := by
    intro l htr
    by_cases ht : truthy (resolveProjectId env)
    · rw [translate_texts_google] at htr
      simp [ht] at htr
      exact translate_loop_ok oracle titles l htr
    · rw [translate_texts_google] at htr
      simp [ht] at htr
  refine ⟨?_, ?_, ?_, ?_⟩
  · cases hasGoogle with
    | false => simp [bsTranslationStep]
    | true =>
      cases htr : translate_texts_google true env oracle titles with
      | error e => simp [bsTranslationStep, htr]
      | ok l =>
        rw [hok l htr] at htr
        simp [bsTranslationStep, htr]
  · intro hg; subst hg; simp [bsTranslationStep]
  · intro e htr hg; subst hg; simp [bsTranslationStep, htr]
  · intro l htr
    have hg : hasGoogle = true := by
      cases hasGoogle with
      | true => rfl
      | false =>
        rw [translate_texts_google] at htr
        simp at htr
    subst hg
    rw [hok l htr] at htr
    simp [bsTranslationStep, htr]

/-- Witness for C3 at concrete input: one title, working oracle, resolvable
project id; the output is the oracle's translation. -/
theorem translation_step_length_and_uniformity_witness :
    bsTranslationStep true ⟨some "proj", none, none, Except.error "unused"⟩
      (fun _ => Except.ok ["hello"]) ["hola"] = ["hello"] := by
  have h := translation_step_length_and_uniformity true
    ⟨some "proj", none, none, Except.error "unused"⟩
    (fun _ => Except.ok ["hello"]) ["hola"]
  rw [h.2.2.2 ["hello"] rfl]
  rfl

/-- C8 counterexample: with no resolvable project id (no env vars, no
credential path), `translate_texts_google` does raise the descriptive
configuration error before any translation call, but the top-level caller
(`__main__` lines 473-478, modelled by `bsTranslationStep`) catches every
exception and substitutes the uniform placeholder list — the run continues
instead of terminating, contradicting the claim that this configuration
failure propagates to the top level. -/
theorem translate_config_failure_not_propagated :
    translate_texts_google true ⟨none, none, none, Except.error "unreadable"⟩
      (fun _ => Except.error "network") ["t"] = Except.error projectIdErrorMsg ∧
    bsTranslationStep true ⟨none, none, none, Except.error "unreadable"⟩
      (fun _ => Except.error "network") ["t"] = ["(translation failed)"] :=
  ⟨rfl, rfl⟩

/-- C8 amended: when the translation-service project identity cannot be
resolved from configuration, `translate_texts_google` fails before any
network translation call (its result is the fixed descriptive error,
independent of the translation oracle), but the caller catches this like any
other translation failure and substitutes the uniform placeholder list, so
the run continues rather than terminating. -/
theorem translate_config_failure_downgraded (env : TranslateEnv)
    (oracle oracle' : String → Except String (List String)) (texts : List String)
    (h : truthy (resolveProjectId env) = false) :
    translate_texts_google true env oracle texts = Except.error projectIdErrorMsg ∧
    translate_texts_google true env oracle' texts =
      translate_texts_google true env oracle texts ∧
    bsTranslationStep true env oracle texts =
      List.replicate texts.length "(translation failed)" := by
  have h1 : translate_texts_google true env oracle texts = Except.error projectIdErrorMsg := by
    rw [translate_texts_google]; simp [h]
  have h1' : translate_texts_google true env oracle' texts = Except.error projectIdErrorMsg := by
    rw [translate_texts_google]; simp [h]
  exact ⟨h1, h1'.trans h1.symm, by simp [bsTranslationStep, h1]⟩

/-- Witness for C8's amended theorem at concrete input: `GCP_PROJECT` set to
the empty string (falsy in Python), no other identity source. -/
theorem translate_config_failure_downgraded_witness :
    bsTranslationStep true ⟨none, some "", none, Except.ok none⟩
      (fun _ => Except.ok ["x"]) ["a", "b"] =
      ["(translation failed)", "(translation failed)"] := by
  have h := translate_config_failure_downgraded ⟨none, some "", none, Except.ok none⟩
    (fun _ => Except.ok ["x"]) (fun _ => Except.ok ["x"]) ["a", "b"] rfl
  rw [h.2.2]
  rfl

/-! ### Link discovery on the landing page (lines 72-95)

The rendered landing document is modelled by the attributes the code reads:
each anchor carries whether it sits inside an `<h2>`/`<h3>` (the CSS
selector `h2 a[href], h3 a[href]` only yields those) and its `href`
attribute (`none` when absent).  Python `'sub' in s` is `strContains`,
`urljoin('https://elpais.com', href)` for an href starting with `/` is
literal prefixing, except that a protocol-relative `//host/...` href gets
only the scheme. -/

def listIsInfix (needle : List Char) : List Char → Bool
  | [] => needle.isEmpty
  | c :: rest => needle.isPrefixOf (c :: rest) || listIsInfix needle rest

def strContains (hay needle : String) : Bool :=
  listIsInfix needle.data hay.data

def strStartsWith (s pre : String) : Bool :=
  pre.data.isPrefixOf s.data

def strEndsWith (s suf : String) : Bool :=
  suf.data.isSuffixOf s.data

structure Anchor where
  inHeading : Bool
  href : Option String
deriving DecidableEq, Repr

structure LandingDoc where
  anchors : List Anchor
deriving DecidableEq, Repr

/-- `soup.select('h2 a[href], h3 a[href]')` followed by `a.get('href')`. -/
def headingHrefs (doc : LandingDoc) : List String :=
  (doc.anchors.filter (fun a => a.inHeading)).filterMap (fun a => a.href)

/-- Lines 79-81: `full = href`, and `urljoin('https://elpais.com', href)`
when `href.startswith('/')`. -/
def resolveHref (href : String) : String :=
  if strStartsWith href "//" then "https:" ++ href
  else if strStartsWith href "/" then "https://elpais.com" ++ href
  else href

/-- Line 84: `'elpais.com' in full and '/opinion/' in full and
full.endswith('.html')`. -/
def passesFilter (u : String) : Bool :=
  strContains u "elpais.com" && strContains u "/opinion/" && strEndsWith u ".html"

/-- The `candidates` list: skip falsy hrefs (`if not href: continue`),
resolve, keep those passing the filter. -/
def candidateLinks (doc : LandingDoc) : List String :=
  ((headingHrefs doc).filterMap
    (fun h => if h.isEmpty then none else some (resolveHref h))).filter passesFilter

/-- Link discovery as a whole (lines 72-95): candidates, first-seen dedupe,
truncation `ordered[:max_articles]`. -/
def extract_article_links (doc : LandingDoc) (maxCount : Nat) : List String :=
  (dedupeByKey (fun u => u) (candidateLinks doc)).take maxCount

/-- Host of an absolute URL: the text between the scheme separator `://` and
the next `/`.  Used only to state what a host-based filter would require. -/
def afterSchemeSep : List Char → List Char
  | ':' :: '/' :: '/' :: rest => rest
  | _ :: rest => afterSchemeSep rest
  | [] => []

def hostOf (u : String) : String :=
  String.mk ((afterSchemeSep u.data).takeWhile (fun c => c ≠ '/'))

/-- C4 counterexample: the code filters with substring tests on the whole
URL (`'elpais.com' in full`), not a host match.  The in-heading link
`https://evil.com/elpais.com/opinion/x.html` passes all three tests and is
returned even though its host is `evil.com`, not the target site. -/
theorem extract_links_host_filter_counterexample :
    extract_article_links
        ⟨[⟨true, some "https://evil.com/elpais.com/opinion/x.html"⟩]⟩ 5 =
      ["https://evil.com/elpais.com/opinion/x.html"] ∧
    hostOf "https://evil.com/elpais.com/opinion/x.html" ≠ "elpais.com" := by
  exact ⟨by decide, by decide⟩

/-- C4 amended: link discovery resolves root-relative hrefs against the base
URL (and protocol-relative hrefs against the scheme), keeps exactly the
links whose resolved URL contains "elpais.com" as a substring, contains
"/opinion/" as a substring, and ends with ".html" (substring tests over the
whole URL, not host/path matching), returns each unique matching URL at most
once in first-seen order truncated to `max_count`, returns the empty
sequence for `max_count = 0`, and returns empty rather than failing when no
links match; without truncation, membership is exactly the matching
candidates. -/
theorem extract_links_substring_filter_spec (doc : LandingDoc) (n : Nat) :
    extract_article_links doc 0 = [] ∧
    (extract_article_links doc n).Nodup ∧
    (extract_article_links doc n).Sublist (candidateLinks doc) ∧
    (extract_article_links doc n).length ≤ n ∧
    (∀ u ∈ extract_article_links doc n, passesFilter u = true) ∧
    (candidateLinks doc = [] → extract_article_links doc n = []) ∧
    ((dedupeByKey (fun u => u) (candidateLinks doc)).length ≤ n →
      ∀ u, u ∈ extract_article_links doc n ↔ u ∈ candidateLinks doc) ∧
    (∀ s : String, strStartsWith s "//" = true → resolveHref s = "https:" ++ s) ∧
    (∀ s : String, strStartsWith s "//" = false → strStartsWith s "/" = true →
      resolveHref s = "https://elpais.com" ++ s) ∧
    (∀ s : String, strStartsWith s "/" = false → resolveHref s = s) := by
  have hnd : (dedupeByKey (fun u => u) (candidateLinks doc)).Nodup := by
    have h := dedupeByKey_map_nodup (fun u => u) (candidateLinks doc)
    simpa using h
  have hsub : (dedupeByKey (fun u => u) (candidateLinks doc)).Sublist (candidateLinks doc) :=
    dedupeByKey_sublist _ _
  have hmem : ∀ u, u ∈ dedupeByKey (fun u => u) (candidateLinks doc) ↔
      u ∈ candidateLinks doc := by
    intro u
    have h := dedupeByKey_map_mem (fun u => u) (candidateLinks doc) u
    simpa using h
  refine ⟨rfl, ?_, ?_, ?_, ?_, ?_, ?_, ?_, ?_, ?_⟩
  · exact ((List.take_sublist n _).nodup) hnd
  · exact (List.take_sublist n _).trans hsub
  · rw [extract_article_links, List.length_take]
    exact Nat.min_le_left _ _
  · intro u hu
    have hc : u ∈ candidateLinks doc :=
      hsub.subset ((List.take_sublist n _).subset hu)
    exact List.of_mem_filter hc
  · intro h
    rw [extract_article_links, h]
    simp [dedupeByKey, dedupeKeyGo]
  · intro hlen u
    rw [extract_article_links, List.take_of_length_le hlen]
    exact hmem u
  · intro s hs
    rw [resolveHref, if_pos hs]
  · intro s hs1 hs2
    rw [resolveHref, if_neg (by simp [hs1]), if_pos hs2]
  · intro s hs
    have hs2 : strStartsWith s "//" = false := by
      rw [strStartsWith] at hs ⊢
      cases hd : s.data with
      | nil => rfl
      | cons c rest =>
        rw [hd] at hs
        by_cases hc : c = '/'
        · exfalso
          subst hc
          simp [List.isPrefixOf] at hs
        · have hc' : ('/' == c) = false := by
            rw [beq_eq_false_iff_ne]
            exact fun heq => hc heq.symm
          simp [List.isPrefixOf, hc']
    rw [resolveHref, if_neg (by simp [hs2]), if_neg (by simp [hs])]

/-- Witness for C4's amended theorem at a concrete document with a duplicate
matching link, a non-matching link, and an absolute matching link. -/
theorem extract_links_substring_filter_spec_witness :
    extract_article_links ⟨[⟨true, some "/opinion/2024/a.html"⟩,
      ⟨true, some "/opinion/2024/a.html"⟩,
      ⟨true, some "https://elpais.com/opinion/c.html"⟩,
      ⟨true, some "/deportes/d.html"⟩]⟩ 5 =
      ["https://elpais.com/opinion/2024/a.html", "https://elpais.com/opinion/c.html"] ∧
    passesFilter "https://elpais.com/opinion/2024/a.html" = true := by
  have h := extract_links_substring_filter_spec ⟨[⟨true, some "/opinion/2024/a.html"⟩,
      ⟨true, some "/opinion/2024/a.html"⟩,
      ⟨true, some "https://elpais.com/opinion/c.html"⟩,
      ⟨true, some "/deportes/d.html"⟩]⟩ 5
  refine ⟨by decide, ?_⟩
  exact h.2.2.2.2.1 "https://elpais.com/opinion/2024/a.html" (by decide)

/-- C10: link discovery only considers anchors nested inside h2/h3 headings:
if no in-heading anchor resolves to the URL `u`, then `u` is not among the
returned article links, even when `u` passes all the URL filters. -/
theorem links_only_from_headings (doc : LandingDoc) (n : Nat) (u : String)
    (_hfil : passesFilter u = true)
    (hno : ∀ a ∈ doc.anchors, a.inHeading = true →
      ∀ s : String, a.href = some s → s.isEmpty = false → resolveHref s ≠ u) :
    u ∉ extract_article_links doc n := by
  intro hu
  have hc : u ∈ candidateLinks doc := by
    have hsub : (dedupeByKey (fun u => u) (candidateLinks doc)).Sublist (candidateLinks doc) :=
      dedupeByKey_sublist _ _
    exact hsub.subset ((List.take_sublist n _).subset hu)
  have hfm : u ∈ (headingHrefs doc).filterMap
      (fun s => if s.isEmpty then none else some (resolveHref s)) :=
    List.mem_of_mem_filter hc
  obtain ⟨s, hsmem, hsres⟩ := List.mem_filterMap.mp hfm
  have hse : s.isEmpty = false := by
    by_cases he : s.isEmpty
    · rw [if_pos he] at hsres; exact absurd hsres (by simp)
    · simpa using he
  rw [if_neg (by simp [hse])] at hsres
  have hres : resolveHref s = u := by simpa using hsres
  obtain ⟨a, hamem, haref⟩ := List.mem_filterMap.mp hsmem
  have ha : a ∈ doc.anchors ∧ a.inHeading = true := by
    have h := List.mem_filter.mp hamem
    exact ⟨h.1, h.2⟩
  exact hno a ha.1 ha.2 s haref hse hres

/-- Witness for C10 at a concrete document: a filter-passing link appearing
only outside h2/h3 is not returned. -/
theorem links_only_from_headings_witness :
    "https://elpais.com/opinion/out.html" ∉
      extract_article_links ⟨[⟨false, some "https://elpais.com/opinion/out.html"⟩,
        ⟨true, some "https://elpais.com/opinion/in.html"⟩]⟩ 5 := by
  exact links_only_from_headings
    ⟨[⟨false, some "https://elpais.com/opinion/out.html"⟩,
      ⟨true, some "https://elpais.com/opinion/in.html"⟩]⟩ 5
    "https://elpais.com/opinion/out.html" (by decide) (by decide)

/-! ### Header analyzer (`analyze_translated_headers`, lines 228-245)

`re.sub(r"[^\w\s]", ' ', t)` replaces every character that is neither a word
character (`\w`: alphanumeric or underscore) nor whitespace (`\s`) with a
space; `.lower()` lower-cases; `.split()` splits on whitespace dropping
empties; tokens of length ≤ 2 are discarded.  The model covers the ASCII
range the translated titles use.  `counts.get(w, 0) + 1` / dict assignment
is `bump` over the insertion-ordered association list; the final dict
comprehension keeps entries with count > 2. -/

def isPyWordChar (c : Char) : Bool :=
  c.isAlphanum || c = '_'

def isPySpace (c : Char) : Bool :=
  c = ' ' || c = '\t' || c = '\n' || c = '\r' || c = '\x0b' || c = '\x0c'

def cleanChar (c : Char) : Char :=
  if isPyWordChar c || isPySpace c then c else ' '

def splitWordsGo (cur : List Char) : List Char → List (List Char)
  | [] => if cur.isEmpty then [] else [cur.reverse]
  | c :: rest =>
    if isPySpace c then
      if cur.isEmpty then splitWordsGo [] rest
      else cur.reverse :: splitWordsGo [] rest
    else splitWordsGo (c :: cur) rest

def tokenize (t : String) : List String :=
  ((splitWordsGo [] (t.data.map (fun c => Char.toLower (cleanChar c)))).filter
    (fun w => 2 < w.length)).map (fun w => String.mk w)

/-- The `words` list accumulated over all titles, skipping falsy titles
(`if not t: continue`). -/
def allWords (titles : List String) : List String :=
  (titles.map (fun t => if t.isEmpty then [] else tokenize t)).flatten

def getCount (counts : List (String × Nat)) (w : String) : Nat :=
  (lookupKey counts w).getD 0

/-- `counts[w] = counts.get(w, 0) + 1`. -/
def bump (counts : List (String × Nat)) (w : String) : List (String × Nat) :=
  setKey counts w (getCount counts w + 1)

def analyze_translated_headers (titles : List String) : List (String × Nat) :=
  ((allWords titles).foldl bump []).filter (fun p => 2 < p.2)

theorem getCount_bump (l : List (String × Nat)) (a w : String) :
    getCount (bump l a) w = getCount l w + (if a = w then 1 else 0) := by
  rw [bump, getCount, lookupKey_setKey]
  by_cases h : a = w
  · subst h; simp [getCount]
  · simp [h, getCount]

theorem getCount_foldl_bump (ws : List String) :
    ∀ (init : List (String × Nat)) (w : String),
      getCount (ws.foldl bump init) w = getCount init w + ws.count w := by
  induction ws with
  | nil => intro init w; simp
  | cons a rest ih =>
    intro init w
    rw [List.foldl_cons, ih, getCount_bump, List.count_cons]
    by_cases h : a = w
    · simp [h]
      omega
    · have hb : (w == a) = false := by
        rw [beq_eq_false_iff_ne]
        exact fun hh => h hh.symm
      simp [h, hb]

theorem foldl_bump_keys_nodup (ws : List String) :
    ∀ init, (keysOf init).Nodup → (keysOf (ws.foldl bump init)).Nodup := by
  induction ws with
  | nil => intro init h; simpa using h
  | cons a rest ih =>
    intro init h
    rw [List.foldl_cons]
    exact ih _ (setKey_keys_nodup _ _ _ h)

theorem analyze_mem_iff (titles : List String) (w : String) (c : Nat) :
    (w, c) ∈ analyze_translated_headers titles ↔
      (allWords titles).count w = c ∧ 2 < c := by
  have hnd : (keysOf ((allWords titles).foldl bump [])).Nodup :=
    foldl_bump_keys_nodup _ [] (by simp [keysOf])
  rw [analyze_translated_headers, List.mem_filter]
  constructor
  · rintro ⟨hmem, hgt⟩
    have hlk := (lookupKey_mem _ (w, c) hnd).mp hmem
    have hg : getCount ((allWords titles).foldl bump []) w = c := by
      rw [getCount, hlk]; rfl
    have hcnt := getCount_foldl_bump (allWords titles) [] w
    rw [hg] at hcnt
    simp [getCount, lookupKey] at hcnt
    exact ⟨hcnt.symm, by simpa using hgt⟩
  · rintro ⟨hcount, hgt⟩
    have hg : getCount ((allWords titles).foldl bump []) w = c := by
      rw [getCount_foldl_bump]
      simp [getCount, lookupKey, hcount]
    have hlk : lookupKey ((allWords titles).foldl bump []) w = some c := by
      rw [getCount] at hg
      cases hl : lookupKey ((allWords titles).foldl bump []) w with
      | none => rw [hl] at hg; simp at hg; omega
      | some v => rw [hl] at hg; simp at hg; rw [hg]
    exact ⟨(lookupKey_mem _ (w, c) hnd).mpr hlk, by simpa using hgt⟩

/-- C5: the header analyzer is a pure, deterministic function of the title
list whose output, as a mapping, is order-independent: an entry `(w, c)` is
in the output exactly when `w` occurs `c` times in the tokens of all titles
combined (punctuation replaced by whitespace, lower-cased, whitespace-split,
tokens of length ≤ 2 discarded — all inside `tokenize`/`allWords`) and
`c > 2`; entries with count ≤ 2 are omitted entirely.  Permuting the titles
yields the same entries.  On `["The Cat sat.", "the cat RAN", "a cat jumped"]`
the result is exactly `[("cat", 3)]`, and on empty or all-empty input it is
empty. -/
theorem analyze_headers_characterization :
    (∀ titles w c, ((w, c) ∈ analyze_translated_headers titles ↔
        (allWords titles).count w = c ∧ 2 < c)) ∧
    (∀ t1 t2, t1.Perm t2 → ∀ w c,
      ((w, c) ∈ analyze_translated_headers t1 ↔
        (w, c) ∈ analyze_translated_headers t2)) ∧
    analyze_translated_headers ["The Cat sat.", "the cat RAN", "a cat jumped"] =
      [("cat", 3)] ∧
    analyze_translated_headers [] = [] ∧
    analyze_translated_headers ["", ""] = [] := by
  refine ⟨fun titles w c => analyze_mem_iff titles w c, ?_, by decide, by decide, by decide⟩
  intro t1 t2 hperm w c
  have hp : (allWords t1).Perm (allWords t2) := (hperm.map _).flatten
  rw [analyze_mem_iff, analyze_mem_iff, hp.count_eq]

/-- Witness for C5's permutation clause at concrete input: swapping the two
titles leaves membership of ("cat", 3) unchanged. -/
theorem analyze_headers_characterization_witness :
    (("cat", 3) ∈ analyze_translated_headers ["the cat sat", "cat and cat"] ↔
      ("cat", 3) ∈ analyze_translated_headers ["cat and cat", "the cat sat"]) := by
  exact analyze_headers_characterization.2.1 ["the cat sat", "cat and cat"]
    ["cat and cat", "the cat sat"] (List.Perm.swap _ _ _) "cat" 3

/-! ### Article page extraction (lines 111-128)

An article page is modelled by the BeautifulSoup query results the code
reads: the first `<h1>` text, the paragraph texts of
`page.find(attrs={'itemprop': 'articleBody'})`, the paragraph texts of
`page.find(class_=re.compile('article_body|articulo|cuerpo'))`, and the
paragraph texts under `page.find('main')` — each `none` when the lookup
finds nothing. -/

structure ArticlePage where
  h1Text : Option String
  bodyItemprop : Option (List String)
  bodyByClass : Option (List String)
  mainParas : Option (List String)
deriving DecidableEq, Repr

/-- Line 117: `page.find(attrs={'itemprop': 'articleBody'}) or
page.find(class_=re.compile('article_body|articulo|cuerpo'))`. -/
def bodyContainerParas (page : ArticlePage) : Option (List String) :=
  match page.bodyItemprop with
  | some ps => some ps
  | none => page.bodyByClass

/-- `'\n\n'.join(...)`. -/
def joinBlank : List String → String
  | [] => ""
  | [p] => p
  | p :: rest => p ++ "\n\n" ++ joinBlank rest

/-- Lines 111-128: title from the first h1 or the sentinel; body from the
container paragraphs (skipping empty ones), else the first 40 paragraphs of
`<main>`, else the sentinel string. -/
def extract_article_body (page : ArticlePage) : String × String :=
  let title := match page.h1Text with
    | some t => t
    | none => "No title found"
  let body := match bodyContainerParas page with
    | some paras => joinBlank (paras.filter (fun p => !p.isEmpty))
    | none =>
      match page.mainParas with
      | some paras => joinBlank (paras.take 40)
      | none => "No article body container found."
  (title, body)

/-- C6: body extraction follows the priority order (a) primary content
container located by the semantic attribute or the class-name pattern, whose
non-empty paragraphs are joined with blank lines; (b) otherwise the first at
most 40 paragraphs of the main region; (c) otherwise the sentinel
"No article body container found."; the title is the first h1 text or the
sentinel "No title found".  The function is total, so extraction never
raises across this boundary. -/
theorem body_extraction_priority (page : ArticlePage) :
    (∀ ps, page.bodyItemprop = some ps → bodyContainerParas page = some ps) ∧
    (page.bodyItemprop = none → bodyContainerParas page = page.bodyByClass) ∧
    (∀ paras, bodyContainerParas page = some paras →
      (extract_article_body page).2 = joinBlank (paras.filter (fun p => !p.isEmpty))) ∧
    (bodyContainerParas page = none → ∀ paras, page.mainParas = some paras →
      (extract_article_body page).2 = joinBlank (paras.take 40)) ∧
    (bodyContainerParas page = none → page.mainParas = none →
      (extract_article_body page).2 = "No article body container found.") ∧
    (∀ t, page.h1Text = some t → (extract_article_body page).1 = t) ∧
    (page.h1Text = none → (extract_article_body page).1 = "No title found") := by
  refine ⟨?_, ?_, ?_, ?_, ?_, ?_, ?_⟩
  · intro ps h; rw [bodyContainerParas, h]
  · intro h; rw [bodyContainerParas, h]
  · intro paras h; simp [extract_article_body, h]
  · intro h paras hm; simp [extract_article_body, h, hm]
  · intro h hm; simp [extract_article_body, h, hm]
  · intro t h; simp [extract_article_body, h]
  · intro h; simp [extract_article_body, h]

/-- Witness for C6 at a concrete page: container found by the class-name
pattern, one empty paragraph skipped; title from the h1. -/
theorem body_extraction_priority_witness :
    extract_article_body ⟨some "Titular", none, some ["Uno", "", "Dos"], some ["x"]⟩ =
      ("Titular", "Uno\n\nDos") := by
  have h := body_extraction_priority ⟨some "Titular", none, some ["Uno", "", "Dos"], some ["x"]⟩
  have hb := h.2.2.1 ["Uno", "", "Dos"] (by decide)
  have ht := h.2.2.2.2.2.1 "Titular" rfl
  have hp : extract_article_body ⟨some "Titular", none, some ["Uno", "", "Dos"], some ["x"]⟩ =
      ((extract_article_body ⟨some "Titular", none, some ["Uno", "", "Dos"], some ["x"]⟩).1,
       (extract_article_body ⟨some "Titular", none, some ["Uno", "", "Dos"], some ["x"]⟩).2) := rfl
  rw [hp, ht, hb]
  decide

/-! ### Image fetcher (lines 148-175)

`requests.get(img_url, timeout=15)` is abstracted as an `Except`-valued
response; a transport failure or any exception inside the `try` is the
`error` case, which the code turns into "no file, no reference".  The
filename is `url.split('/')[-1].replace('.html', '')[:50]` plus an extension
from the `content-type` header. -/

structure HttpResponse where
  status : Nat
  contentType : Option String
  content : List Nat
deriving DecidableEq, Repr

def splitOnSlash : List Char → List (List Char)
  | [] => [[]]
  | c :: rest =>
    if c = '/' then [] :: splitOnSlash rest
    else
      match splitOnSlash rest with
      | seg :: segs => (c :: seg) :: segs
      | [] => [[c]]

/-- `url.split('/')[-1]`. -/
def lastSegment (url : String) : String :=
  String.mk ((splitOnSlash url.data).getLastD [])

/-- `.replace('.html', '')` — removes every occurrence; the fuel is the list
length, which each step strictly decreases, so it never runs out. -/
def removeHtmlGo : Nat → List Char → List Char
  | 0, _ => []
  | _ + 1, [] => []
  | n + 1, c :: rest =>
    if ['.', 'h', 't', 'm', 'l'].isPrefixOf (c :: rest) then
      removeHtmlGo n ((c :: rest).drop 5)
    else c :: removeHtmlGo n rest

def removeHtml (cs : List Char) : List Char :=
  removeHtmlGo cs.length cs

/-- `url.split('/')[-1].replace('.html', '')[:50]`. -/
def imageSlug (articleUrl : String) : String :=
  String.mk ((removeHtml (lastSegment articleUrl).data).take 50)

/-- Lines 162-168: extension from the declared content type; the default is
`.jpg`, also when the header is missing or empty (falsy). -/
def extForContentType : Option String → String
  | none => ".jpg"
  | some ct =>
    if ct.isEmpty then ".jpg"
    else if strContains ct "jpeg" then ".jpg"
    else if strContains ct "png" then ".png"
    else if strContains ct "gif" then ".gif"
    else if strContains ct "webp" then ".webp"
    else ".jpg"

/-- The image retrieval and persist step (lines 148-175): on a transport
failure or a non-200 status no file is written and no reference produced;
on a 200 the raw bytes are stored under `slug + ext`. -/
def fetch_cover_image (articleUrl : String) (resp : Except String HttpResponse) :
    Option (String × List Nat) :=
  match resp with
  | .error _ => none
  | .ok r =>
    if r.status = 200 then
      some (imageSlug articleUrl ++ extForContentType r.contentType, r.content)
    else none

/-- C7: a non-200 status or any transport failure yields no local reference
and no written file, and the fetcher is total (never throws past its
boundary); a 200 response is persisted under a filename derived from the
last path segment of the article URL capped at 50 characters plus an
extension mapped from the content type: jpeg→.jpg, png→.png, gif→.gif,
webp→.webp, undetermined→.jpg. -/
theorem image_fetch_outcomes (articleUrl : String) (resp : Except String HttpResponse) :
    (∀ e, resp = .error e → fetch_cover_image articleUrl resp = none) ∧
    (∀ r, resp = .ok r → r.status ≠ 200 → fetch_cover_image articleUrl resp = none) ∧
    (∀ r, resp = .ok r → r.status = 200 →
      fetch_cover_image articleUrl resp =
        some (imageSlug articleUrl ++ extForContentType r.contentType, r.content) ∧
      (imageSlug articleUrl).length ≤ 50) ∧
    extForContentType (some "image/png") = ".png" ∧
    extForContentType (some "image/jpeg") = ".jpg" ∧
    extForContentType (some "image/gif") = ".gif" ∧
    extForContentType (some "image/webp") = ".webp" ∧
    extForContentType none = ".jpg" := by
  refine ⟨?_, ?_, ?_, by decide, by decide, by decide, by decide, by decide⟩
  · intro e h; rw [h]; rfl
  · intro r h hs; rw [h, fetch_cover_image, if_neg hs]
  · intro r h hs
    constructor
    · rw [h, fetch_cover_image, if_pos hs]
    · have hlen : (imageSlug articleUrl).length =
          ((removeHtml (lastSegment articleUrl).data).take 50).length := rfl
      rw [hlen, List.length_take]
      exact Nat.min_le_left _ _

/-- Witness for C7 at a concrete 200 response with content-type image/png:
the stored filename is the article slug with a .png extension. -/
theorem image_fetch_outcomes_witness :
    fetch_cover_image "https://elpais.com/opinion/foo.html"
      (Except.ok ⟨200, some "image/png", [137, 80]⟩) =
      some ("foo.png", [137, 80]) := by
  have h := image_fetch_outcomes "https://elpais.com/opinion/foo.html"
    (Except.ok ⟨200, some "image/png", [137, 80]⟩)
  rw [(h.2.2.1 ⟨200, some "image/png", [137, 80]⟩ rfl rfl).1]
  decide

/-! ### BrowserStack capability preparation (`get_browserstack_driver`, lines 254-302)

The caller-supplied W3C capability mapping is a dict whose values are either
scalars (`browserName`, `browserVersion`) or the nested `bstack:options`
dict.  The function mutates only `cap['bstack:options']`: it takes the
existing bundle (or `{}`), sets `userName` and `accessKey` in it, and stores
it back; every other top-level entry and every other entry inside the bundle
is untouched.  (The subsequent `options.set_capability` loop reads `cap`, it
does not mutate it.) -/

inductive CapVal where
  | str : String → CapVal
  | table : List (String × String) → CapVal
deriving DecidableEq, Repr

/-- `cap.get('bstack:options', {})` (line 287). -/
def getBstackOptions (cap : List (String × CapVal)) : List (String × String) :=
  match lookupKey cap "bstack:options" with
  | some (CapVal.table t) => t
  | _ => []

/-- The capability mutation performed by `get_browserstack_driver`
(lines 287-294) with the two credential values as inputs. -/
def get_browserstack_driver_caps (user bskey : String) (cap : List (String × CapVal)) :
    List (String × CapVal) :=
  let bstackOptions := getBstackOptions cap
  let withUser := setKey bstackOptions "userName" user
  let withKey := setKey withUser "accessKey" bskey
  setKey cap "bstack:options" (CapVal.table withKey)

/-- C9: session preparation injects exactly the two authentication fields
into the nested options bundle: afterwards `userName` and `accessKey` hold
the credentials, every other pre-existing key inside the bundle is
unchanged, and every top-level key other than `bstack:options` is
unchanged. -/
theorem caps_auth_injection (user bskey : String) (cap : List (String × CapVal)) :
    (∀ k, k ≠ "bstack:options" →
      lookupKey (get_browserstack_driver_caps user bskey cap) k = lookupKey cap k) ∧
    lookupKey (getBstackOptions (get_browserstack_driver_caps user bskey cap))
      "userName" = some user ∧
    lookupKey (getBstackOptions (get_browserstack_driver_caps user bskey cap))
      "accessKey" = some bskey ∧
    (∀ k, k ≠ "userName" → k ≠ "accessKey" →
      lookupKey (getBstackOptions (get_browserstack_driver_caps user bskey cap)) k =
        lookupKey (getBstackOptions cap) k) := by
  have hcap : getBstackOptions (get_browserstack_driver_caps user bskey cap) =
      setKey (setKey (getBstackOptions cap) "userName" user) "accessKey" bskey := by
    rw [get_browserstack_driver_caps, getBstackOptions, lookupKey_setKey]
    simp
  refine ⟨?_, ?_, ?_, ?_⟩
  · intro k hk
    rw [get_browserstack_driver_caps, lookupKey_setKey, if_neg (fun hh => hk hh.symm)]
  · rw [hcap, lookupKey_setKey, if_neg (by decide), lookupKey_setKey, if_pos rfl]
  · rw [hcap, lookupKey_setKey, if_pos rfl]
  · intro k hk1 hk2
    rw [hcap, lookupKey_setKey, if_neg (fun hh => hk2 hh.symm),
      lookupKey_setKey, if_neg (fun hh => hk1 hh.symm)]

/-- Witness for C9 at a concrete capability mapping: the pre-existing
bundle key `os` and the top-level `browserName` are unchanged while the two
credentials appear in the bundle. -/
theorem caps_auth_injection_witness :
    lookupKey (getBstackOptions (get_browserstack_driver_caps "alice" "sekrit"
      [("browserName", CapVal.str "Chrome"),
       ("bstack:options", CapVal.table [("os", "Windows"), ("sessionName", "S1")])]))
      "os" = some "Windows" ∧
    lookupKey (get_browserstack_driver_caps "alice" "sekrit"
      [("browserName", CapVal.str "Chrome"),
       ("bstack:options", CapVal.table [("os", "Windows"), ("sessionName", "S1")])])
      "browserName" = some (CapVal.str "Chrome") := by
  have h := caps_auth_injection "alice" "sekrit"
    [("browserName", CapVal.str "Chrome"),
     ("bstack:options", CapVal.table [("os", "Windows"), ("sessionName", "S1")])]
  constructor
  · rw [h.2.2.2 "os" (by decide) (by decide)]
    decide
  · rw [h.1 "browserName" (by decide)]
    decide
